import Mathlib

/-!
Shallow embedding of the BLE-MIDI consumer pipeline of `bt10.py`
(function `run_queue_consumer`), covering:

* the timestamp unwrapper (lines 100-121 of the source): the epoch
  variable `T_cycle0`, the per-sub-event wrap-count estimate `N`, the
  half-period correction, and the final `T_event`;
* the sub-event extractor (lines 92-105): payload-length validation,
  the 6-bit high field seeded from byte 0, the per-group 7-bit low
  fields with rollover detection, and the group iteration
  `for a in range(1, len(data) - 1, 4)`;
* the note correlator and dispatcher (lines 123-157): the pending
  note-on list `E_ON`, duplicate note-on and unmatched note-off
  handling, live forwarding via `midi_out.send_message`, and the
  recorded timeline (`midi_file.addNote` / `addControllerEvent`).

Modelling conventions.  Host arrival times (`T_elapsed`) and all
reconstructed timestamps are integers in milliseconds; Python's `//`
and `%` on these quantities are floor division and floor modulus,
embedded as `Int.fdiv` and `Int.emod` (for the positive modulus 8192
Python `%` agrees with `Int.emod`).  Payload bytes are `Nat` and the
source's bit masks are applied exactly as written.  `midi_file.addNote`
receives times divided by the constant positive quarter-note length
`quarter()`; the timeline here records the onset and duration in
milliseconds, i.e. before that fixed positive rescaling, which does not
affect any order or sign property.  Reads of payload bytes that would
raise `IndexError` in Python are modelled by returning `none`; the two
ghost fields `tTrace` and `clkTrace` record every computed event time
and every reconstructed per-packet clock value and are written by no
other component, so they change no observable behaviour.
-/

/-- A pending note-on entry of the Python list `E_ON`: the source stores
the triple `[T_event, data[a+2], data[a+3]]` (onset time, pitch byte,
velocity byte). -/
structure PendingNote where
  onset : Int
  pitch : Nat
  vel : Nat
deriving DecidableEq, Repr

/-- An entry of the recorded timeline: `midi_file.addNote(0, channel,
pitch, onset, duration, velocity)` or `midi_file.addControllerEvent(0,
channel, time, controller, value)`, with times kept in milliseconds. -/
inductive TimelineEntry where
  | note (channel pitch : Nat) (onset duration : Int) (velocity : Nat)
  | controller (channel : Nat) (time : Int) (controller value : Nat)
deriving DecidableEq, Repr

/-- The consumer's mutable state: the session epoch `T_cycle0`
(0 doubles as the not-yet-established sentinel, exactly as in the
source), the pending note-ons `E_ON`, the recorded timeline, the raw
messages sent to the live output, and two ghost traces (all computed
event times, all reconstructed packet-local clock values). -/
structure PState where
  T_cycle0 : Int
  E_ON : List PendingNote
  timeline : List TimelineEntry
  live : List (List Nat)
  tTrace : List Int
  clkTrace : List Nat
deriving DecidableEq, Repr

/-- The consumer state at the start of a session. -/
def initState : PState := ⟨0, [], [], [], [], []⟩

/-- One call of the timestamp unwrapper (source lines 107-121) for a
sub-event with arrival time `A` and reconstructed packet-local clock
`L`.  Returns the new `T_cycle0` and the computed `T_event`.  In the
established branch `N = (T_elapsed - T_cycle0) // 8192` is Python floor
division, `DT = (T_elapsed - T_cycle0) % 8192`, and the correction
decrements `N` when `T_packet > DT` and increments it otherwise,
exactly when `abs(DT - T_packet) > 4096`. -/
def unwrapStep (c A L : Int) : Int × Int :=
  if c = 0 then
    let c1 := A - L
    let DT := (A - c1) % 8192
    let M : Int := if 4096 < (DT - L).natAbs then (if DT < L then 0 - 1 else 0 + 1) else 0
    (c1, c1 + 8192 * M + L)
  else
    let N := (A - c).fdiv 8192
    let DT := (A - c) % 8192
    let M := if 4096 < (DT - L).natAbs then (if DT < L then N - 1 else N + 1) else N
    (c, c + 8192 * M + L)

/-- The timestamp unwrapper run over a whole session of sub-events
`(arrival, local clock)`, starting from epoch state `c`; returns the
final epoch state and the list of computed timestamps. -/
def unwrapRun (c : Int) : List (Int × Int) → Int × List Int
  | [] => (c, [])
  | (A, L) :: rest =>
    let p := unwrapStep c A L
    let q := unwrapRun p.1 rest
    (q.1, p.2 :: q.2)

/-- The per-group clock reconstruction (source lines 102-105): mask the
low 7 bits of the timestamp byte, increment the high field if the low
field decreased, and combine as `high << 7 | low`.  Returns the new
high field and the reconstructed clock value `T_packet`. -/
def clockStep (high low0 t : Nat) : Nat × Nat :=
  let low := t &&& 0x7f
  let high1 := if low < low0 then high + 1 else high
  (high1, (high1 <<< 7) ||| low)

/-- Note-off handling (source lines 129-140): scan `E_ON` in insertion
order for the first entry whose pitch equals the note-off's first data
byte; if found, return it together with the list with that entry
removed (`E_ON.pop(i)`). -/
def popFirst (p : Nat) : List PendingNote → Option (PendingNote × List PendingNote)
  | [] => none
  | e :: rest =>
    if e.pitch = p then some (e, rest)
    else (popFirst p rest).map (fun q => (q.1, e :: q.2))

/-- The `case 0x80` arm: on a match, forward the raw note-off live and
record a note with the pending entry's onset and velocity and duration
`T_event - onset`; with no match the event is only logged. -/
def handleNoteOff (st : PState) (chan : Nat) (T : Int) (d1 d2 : Nat) : PState :=
  match popFirst d1 st.E_ON with
  | some q =>
    { st with
      E_ON := q.2
      live := st.live ++ [[0x80, d1, d2]]
      timeline := st.timeline ++ [TimelineEntry.note chan q.1.pitch q.1.onset (T - q.1.onset) q.1.vel] }
  | none => st

/-- The `case 0x90` arm: a note-on whose pitch already has a pending
entry is logged and dropped; otherwise it is forwarded live and a
pending entry `[T_event, pitch, velocity]` is appended. -/
def handleNoteOn (st : PState) (T : Int) (d1 d2 : Nat) : PState :=
  if st.E_ON.any (fun e => e.pitch == d1) then st
  else
    { st with
      live := st.live ++ [[0x90, d1, d2]]
      E_ON := st.E_ON ++ [⟨T, d1, d2⟩] }

/-- Event dispatch for one 4-byte group (source lines 123-157): groups
on a channel other than 0 are skipped, then the status nibble selects
note-off, note-on, controller, or no action. -/
def handleEvent (st : PState) (T : Int) (s d1 d2 : Nat) : PState :=
  if s &&& 0x0f ≠ 0 then st
  else if s &&& 0xf0 = 0x80 then handleNoteOff st (s &&& 0x0f) T d1 d2
  else if s &&& 0xf0 = 0x90 then handleNoteOn st T d1 d2
  else if s &&& 0xf0 = 0xb0 then
    { st with
      live := st.live ++ [[0xb0, d1, d2]]
      timeline := st.timeline ++ [TimelineEntry.controller (s &&& 0x0f) T d1 d2] }
  else st

/-- The 4-byte groups visited by `for a in range(1, len(data) - 1, 4)`:
the bytes from index 1 on, in consecutive blocks `data[a]`,
`data[a+1]`, `data[a+2]`, `data[a+3]`.  Returns `none` if the byte
count is not a multiple of 4 (never the case for a validated
payload). -/
def chunk4 : List Nat → Option (List (Nat × Nat × Nat × Nat))
  | [] => some []
  | t :: s :: d1 :: d2 :: rest => (chunk4 rest).map (fun l => (t, s, d1, d2) :: l)
  | _ => none

/-- The group loop body (source lines 101-157): reconstruct the clock,
run the unwrapper, record the ghost traces, dispatch the event, and
continue with the updated high and low fields. -/
def processGroups (st : PState) (A : Int) (high low0 : Nat) :
    List (Nat × Nat × Nat × Nat) → PState
  | [] => st
  | (t, s, d1, d2) :: rest =>
    let c := clockStep high low0 t
    let p := unwrapStep st.T_cycle0 A (c.2 : Int)
    let st1 : PState :=
      { st with
        T_cycle0 := p.1
        tTrace := st.tTrace ++ [p.2]
        clkTrace := st.clkTrace ++ [c.2] }
    processGroups (handleEvent st1 p.2 s d1 d2) A c.1 (t &&& 0x7f) rest

/-- Processing of one queued packet (source lines 90-157): the length
validation `(len(data) - 1) & 0x03 != 0` drops the packet with no
effect; otherwise byte 0 seeds the high field, byte 1 the previous low
field, and the groups are processed in order.  A payload of length 1
passes the validation but Python's read of `data[1]` raises
`IndexError`, modelled as `none`. -/
def processPacket (st : PState) (A : Int) (data : List Nat) : Option PState :=
  if ((data.length : Int) - 1) % 4 ≠ 0 then some st
  else
    match data with
    | [] => some st
    | [_] => none
    | b0 :: b1 :: rest =>
      (chunk4 (b1 :: rest)).map (fun chunks =>
        processGroups st A (b0 &&& 0x3f) (b1 &&& 0x7f) chunks)

/-- The consumer loop from a given state over a list of queued
messages `(T_elapsed, data)`. -/
def runFrom (st : PState) : List (Int × List Nat) → Option PState
  | [] => some st
  | (A, data) :: rest =>
    match processPacket st A data with
    | some st1 => runFrom st1 rest
    | none => none

/-- A whole consumer session over a list of queued packets. -/
def runConsumer (packets : List (Int × List Nat)) : Option PState :=
  runFrom initState packets

/-- The hypotheses of the monotonicity claim as the specification
states them, for a session of sub-events `evs = (arrival, local
clock)` with ghost true elapsed times `V`: the first true elapsed time
is the first local-clock value (the epoch reference), arrival times
are non-decreasing, the true elapsed time advances monotonically, each
local-clock value is the 13-bit device reading `V % 8192` of a
non-negative true time, and the host/device drift accrued per
inter-packet gap is less than 4096 ms. -/
def C2ClaimHyp (evs : List (Int × Int)) (V : List Int) : Prop :=
  evs.length = V.length ∧
  V.head? = (evs.map Prod.snd).head? ∧
  List.Chain' (· ≤ ·) (evs.map Prod.fst) ∧
  List.Chain' (· ≤ ·) V ∧
  (∀ p ∈ evs.zip V, p.1.2 = p.2 % 8192 ∧ 0 ≤ p.2) ∧
  List.Chain' (fun p q => ((q.1.1 - p.1.1) - (q.2 - p.2)).natAbs < 4096) (evs.zip V)

/-- Correlator-state invariant, first half: every pending onset is one
of the recorded event times. -/
def OnsetOk (st : PState) : Prop := ∀ e ∈ st.E_ON, e.onset ∈ st.tTrace

/-- Correlator-state invariant, second half: whenever the recorded
event times are pairwise non-decreasing, every note of the timeline
has non-negative duration. -/
def DurOk (st : PState) : Prop :=
  List.Pairwise (· ≤ ·) st.tTrace →
    ∀ ch p o d v, TimelineEntry.note ch p o d v ∈ st.timeline → 0 ≤ d

/-- The conjunction of the two correlator-state invariants. -/
def Good (st : PState) : Prop := OnsetOk st ∧ DurOk st

/-- Python floor division by the positive wrap period 8192 agrees with
Euclidean division. -/
theorem fdiv_8192_eq (a : Int) : a.fdiv 8192 = a / 8192 :=
  Int.fdiv_eq_ediv a (by decide)

/-- When the epoch is unset, one unwrapper call fixes it to
`arrival - local clock`. -/
theorem unwrapStep_epoch (A L : Int) : (unwrapStep 0 A L).1 = A - L := by
  simp [unwrapStep]

/-- A nonzero epoch is never written by the unwrapper. -/
theorem unwrapStep_keep (c A L : Int) (hc : c ≠ 0) : (unwrapStep c A L).1 = c := by
  simp [unwrapStep, hc]

/-- On the epoch-establishing call with a 13-bit clock value, the
returned timestamp is the arrival time itself. -/
theorem unwrapStep_first (A L : Int) (h0 : 0 ≤ L) (h1 : L < 8192) :
    unwrapStep 0 A L = (A - L, A) := by
  have hL : L % 8192 = L := Int.emod_eq_of_lt h0 h1
  simp [unwrapStep, hL]

/-- Correctness of the half-period correction: if the device reading
`L` is the 13-bit residue of a true elapsed time `V` and the host
estimate `A - c` is within half a wrap period of `V`, the unwrapper
returns exactly `c + V`. -/
theorem unwrap_exact (c A V L : Int) (hc : c ≠ 0) (hL : L = V % 8192)
    (hd : (A - c - V).natAbs < 4096) : unwrapStep c A L = (c, c + V) := by
  simp only [unwrapStep, if_neg hc, fdiv_8192_eq, Prod.mk.injEq]
  subst hL
  refine ⟨trivial, ?_⟩
  split_ifs <;> omega

/-- C1: on the very first decoded sub-event the epoch is fixed as
`arrival_time - local_clock`; for a sub-event with the epoch already
established, with `N = floor((arrival - epoch) / 8192)` (characterised
by its bounds) and `DT = (arrival - epoch) mod 8192`, the returned
timestamp is `epoch + 8192 * N' + local_clock` where `N'` is `N - 1`
when `|DT - local_clock| > 4096` and `local_clock > DT`, `N + 1` when
`|DT - local_clock| > 4096` and `local_clock ≤ DT`, and `N`
otherwise. -/
theorem C1_unwrap_step_spec (c A L N DT : Int) (hc : c ≠ 0)
    (hNl : 8192 * N ≤ A - c) (hNu : A - c < 8192 * (N + 1))
    (hDT : DT = A - c - 8192 * N) :
    (unwrapStep 0 A L).1 = A - L ∧
    (unwrapStep c A L).2 =
      c + 8192 * (if 4096 < (DT - L).natAbs then (if DT < L then N - 1 else N + 1) else N) + L := by
  have hN : (A - c) / 8192 = N := by omega
  have hDT2 : (A - c) % 8192 = DT := by omega
  refine ⟨unwrapStep_epoch A L, ?_⟩
  simp only [unwrapStep, if_neg hc, fdiv_8192_eq, hN, hDT2]

/-- Witness for C1 at epoch 7, arrival 20000, local clock 3000, where
`N = 2` and `DT = 3609`. -/
theorem C1_unwrap_step_spec_witness :
    (unwrapStep 0 20000 3000).1 = 20000 - 3000 ∧
    (unwrapStep 7 20000 3000).2 =
      7 + 8192 * (if 4096 < ((3609 : Int) - 3000).natAbs then
        (if (3609 : Int) < 3000 then 2 - 1 else 2 + 1) else 2) + 3000 :=
  C1_unwrap_step_spec 7 20000 3000 2 3609 (by decide) (by decide) (by decide) (by decide)

/-- With the epoch established at `c`, a session whose every sub-event
carries the 13-bit residue of a true elapsed time within half a wrap
period of the host estimate returns exactly `c + V_i` at every
sub-event. -/
theorem unwrapRun_exact (c : Int) (hc : c ≠ 0) (evs : List (Int × Int)) (V : List Int)
    (hlen : evs.length = V.length)
    (hLV : ∀ p ∈ evs.zip V, p.1.2 = p.2 % 8192)
    (hd : ∀ p ∈ evs.zip V, (p.1.1 - c - p.2).natAbs < 4096) :
    unwrapRun c evs = (c, V.map (fun v => c + v)) := by
  induction evs generalizing V with
  | nil =>
    cases V with
    | nil => rfl
    | cons v V => simp at hlen
  | cons e evs ih =>
    obtain ⟨A, L⟩ := e
    cases V with
    | nil => simp at hlen
    | cons v V =>
      have hhead : ((A, L), v) ∈ ((A, L) :: evs).zip (v :: V) := by
        simp
      have hstep := unwrap_exact c A v L hc (hLV _ hhead) (hd _ hhead)
      have htail : unwrapRun c evs = (c, V.map (fun w => c + w)) := by
        refine ih V (by simpa using hlen) ?_ ?_
        · intro p hp
          exact hLV p (by simp [hp])
        · intro p hp
          exact hd p (by simp [hp])
      simp [unwrapRun, hstep, htail]

/-- C2, counterexample: the sub-event session with arrivals 1, 101,
201 and local clocks 0, 4000, 8000 realises true elapsed times 0,
4000, 8000 (monotone, each inter-packet drift of 3900 ms below 4096
ms, arrivals strictly increasing), yet the unwrapper returns 1, 4001,
-191, which is not monotonically non-decreasing: the per-gap drift
bound of the claim does not prevent the accumulated host/device skew
from exceeding half a wrap period, after which the correction picks
the wrong cycle. -/
theorem C2_gap_drift_counterexample :
    C2ClaimHyp [(1, 0), (101, 4000), (201, 8000)] [0, 4000, 8000] ∧
    ¬ List.Chain' (· ≤ ·) (unwrapRun 0 [(1, 0), (101, 4000), (201, 8000)]).2 := by
  constructor
  · refine ⟨rfl, rfl, ?_, ?_, ?_, ?_⟩
    · norm_num [List.chain'_cons]
    · norm_num [List.chain'_cons]
    · decide
    · norm_num [List.chain'_cons]
  · have hval : (unwrapRun 0 [(1, 0), (101, 4000), (201, 8000)]).2 = [1, 4001, -191] := by
      decide
    rw [hval]
    intro h
    rcases (List.chain'_cons.mp h).2 with h2
    exact absurd (List.chain'_cons.mp h2).1 (by norm_num)

/-- C2, amended: for a session whose first sub-event has a 13-bit
local clock different from its arrival time (so the epoch sentinel is
actually set), whose true elapsed times advance monotonically starting
from the first local-clock value, and whose accumulated host/device
skew relative to the epoch-fixing sub-event stays below 4096 ms at
every subsequent sub-event, the returned timestamps are monotonically
non-decreasing. -/
theorem C2_monotone_under_bounded_skew (A0 L0 : Int) (rest : List (Int × Int)) (Vr : List Int)
    (h0 : A0 ≠ L0) (hL0 : 0 ≤ L0) (hL0u : L0 < 8192)
    (hlen : rest.length = Vr.length)
    (hmono : List.Chain' (· ≤ ·) (L0 :: Vr))
    (hLV : ∀ p ∈ rest.zip Vr, p.1.2 = p.2 % 8192)
    (hd : ∀ p ∈ rest.zip Vr, (p.1.1 - (A0 - L0) - p.2).natAbs < 4096) :
    List.Chain' (· ≤ ·) (unwrapRun 0 ((A0, L0) :: rest)).2 := by
  have hc : A0 - L0 ≠ 0 := fun h => h0 (by omega)
  have hfirst := unwrapStep_first A0 L0 hL0 hL0u
  have htail := unwrapRun_exact (A0 - L0) hc rest Vr hlen hLV hd
  have hout : (unwrapRun 0 ((A0, L0) :: rest)).2 = (L0 :: Vr).map (fun v => (A0 - L0) + v) := by
    simp [unwrapRun, hfirst, htail]
  rw [hout, List.chain'_map]
  exact hmono.imp (fun h => by omega)

/-- Witness for the amended C2: arrivals 10, 8200 with local clocks 5,
3 realise true elapsed times 5, 8195 with zero skew; the output
timestamps are non-decreasing. -/
theorem C2_monotone_under_bounded_skew_witness :
    List.Chain' (· ≤ ·) (unwrapRun 0 [(10, 5), (8200, 3)]).2 :=
  C2_monotone_under_bounded_skew 10 5 [(8200, 3)] [8195] (by decide) (by decide) (by decide) rfl
    (by norm_num [List.chain'_cons]) (by decide) (by decide)

/-- Event dispatch never touches the epoch or the ghost traces. -/
theorem handleEvent_ghost (st : PState) (T : Int) (s d1 d2 : Nat) :
    (handleEvent st T s d1 d2).T_cycle0 = st.T_cycle0 ∧
    (handleEvent st T s d1 d2).tTrace = st.tTrace ∧
    (handleEvent st T s d1 d2).clkTrace = st.clkTrace := by
  unfold handleEvent handleNoteOff handleNoteOn
  split_ifs <;> first
  | exact ⟨rfl, rfl, rfl⟩
  | (cases popFirst d1 st.E_ON <;> exact ⟨rfl, rfl, rfl⟩)

/-- The group loop never modifies a nonzero epoch. -/
theorem processGroups_cycle0 (chunks : List (Nat × Nat × Nat × Nat)) :
    ∀ (st : PState) (A : Int) (high low0 : Nat), st.T_cycle0 ≠ 0 →
      (processGroups st A high low0 chunks).T_cycle0 = st.T_cycle0 := by
  induction chunks with
  | nil => intro st A high low0 _; rfl
  | cons ch rest ih =>
    obtain ⟨t, s, d1, d2⟩ := ch
    intro st A high low0 hc
    simp only [processGroups]
    have hp1 : (unwrapStep st.T_cycle0 A ((clockStep high low0 t).2 : Int)).1 = st.T_cycle0 :=
      unwrapStep_keep _ _ _ hc
    have hcyc :
        (handleEvent
          { st with
            T_cycle0 := (unwrapStep st.T_cycle0 A ((clockStep high low0 t).2 : Int)).1
            tTrace := st.tTrace ++ [(unwrapStep st.T_cycle0 A ((clockStep high low0 t).2 : Int)).2]
            clkTrace := st.clkTrace ++ [(clockStep high low0 t).2] }
          (unwrapStep st.T_cycle0 A ((clockStep high low0 t).2 : Int)).2 s d1 d2).T_cycle0 =
          st.T_cycle0 := by
      rw [(handleEvent_ghost _ _ _ _ _).1]
      exact hp1
    rw [ih _ _ _ _ (by rw [hcyc]; exact hc), hcyc]

/-- Packet processing never modifies a nonzero epoch. -/
theorem processPacket_cycle0 (st : PState) (A : Int) (data : List Nat) (st' : PState)
    (hc : st.T_cycle0 ≠ 0) (h : processPacket st A data = some st') :
    st'.T_cycle0 = st.T_cycle0 := by
  unfold processPacket at h
  split_ifs at h with hlen
  · cases h
    rfl
  · cases data with
    | nil =>
      cases h
      rfl
    | cons b0 tail =>
      cases tail with
      | nil => cases h
      | cons b1 rest =>
        obtain ⟨chunks, _, heq⟩ := Option.map_eq_some'.mp h
        rw [← heq]
        exact processGroups_cycle0 chunks st A _ _ hc

/-- The consumer loop never modifies a nonzero epoch. -/
theorem runFrom_cycle0 (packets : List (Int × List Nat)) :
    ∀ st st' : PState, st.T_cycle0 ≠ 0 → runFrom st packets = some st' →
      st'.T_cycle0 = st.T_cycle0 := by
  induction packets with
  | nil =>
    intro st st' _ h
    cases h
    rfl
  | cons pk rest ih =>
    obtain ⟨A, data⟩ := pk
    intro st st' hc h
    simp only [runFrom] at h
    cases hpp : processPacket st A data with
    | none => rw [hpp] at h; cases h
    | some st1 =>
      rw [hpp] at h
      have h1 := processPacket_cycle0 st A data st1 hc hpp
      rw [ih st1 st' (by rw [h1]; exact hc) h, h1]

/-- C3, counterexample: when the first decoded sub-event has
`arrival_time = local_clock` (here both 100), the established epoch is
the sentinel value 0, so the next sub-event (arrival 300, local clock
50) re-establishes the epoch as 250: the epoch fixed at the first
sub-event of the session is not kept for the remainder of the
session. -/
theorem C3_epoch_reset_counterexample :
    (runConsumer [(100, [0, 100, 0x90, 60, 100])]).map PState.T_cycle0 = some 0 ∧
    (runConsumer [(100, [0, 100, 0x90, 60, 100]),
      (300, [0, 50, 0x90, 61, 100])]).map PState.T_cycle0 = some 250 ∧
    (0 : Int) ≠ 250 := by
  decide

/-- C3, amended: once the epoch variable holds a nonzero value it is
never modified for the remainder of the session, whatever packets
follow; and a sub-event processed with the epoch unset fixes it to
`arrival_time - local_clock`.  (When that difference is exactly 0 the
stored value is the unset sentinel, so the epoch is re-derived at the
next sub-event; this is the only deviation from the claim.) -/
theorem C3_epoch_persistent_once_set (A L : Int) (st st' : PState)
    (packets : List (Int × List Nat)) (hc : st.T_cycle0 ≠ 0)
    (hrun : runFrom st packets = some st') :
    st'.T_cycle0 = st.T_cycle0 ∧ (unwrapStep 0 A L).1 = A - L :=
  ⟨runFrom_cycle0 packets st st' hc hrun, unwrapStep_epoch A L⟩

/-- Witness for the amended C3: a session continued from epoch 5 over
one note-on packet keeps epoch 5. -/
theorem C3_epoch_persistent_once_set_witness :
    (⟨5, [⟨55, 60, 10⟩], [], [[144, 60, 10]], [55], [50]⟩ : PState).T_cycle0 =
      (⟨5, [], [], [], [], []⟩ : PState).T_cycle0 ∧
    (unwrapStep 0 20 8).1 = 20 - 8 :=
  C3_epoch_persistent_once_set 20 8 ⟨5, [], [], [], [], []⟩
    ⟨5, [⟨55, 60, 10⟩], [], [[144, 60, 10]], [55], [50]⟩
    [(100, [0, 50, 0x90, 60, 10])] (by decide) (by decide)

/-- C5: a payload whose length minus 1 is not a multiple of 4 is
dropped whole: the packet is consumed with the consumer state (epoch,
pending notes, timeline, live output, traces) unchanged, no sub-event
is emitted, and the session continues (`some`, not a crash). -/
theorem C5_malformed_length_rejected (st : PState) (A : Int) (data : List Nat)
    (h : ((data.length : Int) - 1) % 4 ≠ 0) : processPacket st A data = some st := by
  unfold processPacket
  rw [if_pos h]

/-- Witness for C5: a 3-byte payload is rejected with no state
change. -/
theorem C5_malformed_length_rejected_witness :
    processPacket initState 3 [1, 2, 3] = some initState :=
  C5_malformed_length_rejected initState 3 [1, 2, 3] (by decide)

/-- C9: the pipeline is deterministic: two consumer instances fed the
same packet sequence (same arrival times, same payloads) produce the
same timeline. -/
theorem C9_timeline_deterministic (packets : List (Int × List Nat)) (st1 st2 : PState)
    (h1 : runConsumer packets = some st1) (h2 : runConsumer packets = some st2) :
    st1.timeline = st2.timeline := by
  rw [h1] at h2
  cases h2
  rfl

/-- Witness for C9 on a one-packet session. -/
theorem C9_timeline_deterministic_witness :
    (⟨-50, [⟨50, 60, 100⟩], [], [[144, 60, 100]], [50], [100]⟩ : PState).timeline =
      (⟨-50, [⟨50, 60, 100⟩], [], [[144, 60, 100]], [50], [100]⟩ : PState).timeline :=
  C9_timeline_deterministic [(50, [0, 100, 0x90, 60, 100])]
    ⟨-50, [⟨50, 60, 100⟩], [], [[144, 60, 100]], [50], [100]⟩
    ⟨-50, [⟨50, 60, 100⟩], [], [[144, 60, 100]], [50], [100]⟩ (by decide) (by decide)

/-- C10: a payload of length 1 passes the length validation
`(len(data) - 1) & 0x03 == 0`, yet processing it reads `data[1]`,
which is out of bounds: in the source this raises an uncaught
`IndexError` that aborts the consumer, modelled here as `none`. -/
theorem C10_length_one_passes_validation_but_crashes :
    ((1 : Int) - 1) % 4 = 0 ∧ processPacket initState 0 [0] = none := by
  decide

/-- The note-off scan finds the first entry in insertion order whose
pitch matches, and removes exactly that entry. -/
theorem popFirst_split (p : Nat) (l1 l2 : List PendingNote) (ev : PendingNote)
    (h1 : ∀ e ∈ l1, e.pitch ≠ p) (h2 : ev.pitch = p) :
    popFirst p (l1 ++ ev :: l2) = some (ev, l1 ++ l2) := by
  induction l1 with
  | nil => simp [popFirst, h2]
  | cons e l1 ih =>
    have he : e.pitch ≠ p := h1 e (by simp)
    simp [popFirst, he, ih (fun x hx => h1 x (by simp [hx]))]

/-- The note-off scan fails exactly on a pitch with no pending
entry. -/
theorem popFirst_none (p : Nat) (l : List PendingNote) (h : ∀ e ∈ l, e.pitch ≠ p) :
    popFirst p l = none := by
  induction l with
  | nil => rfl
  | cons e l ih => simp [popFirst, h e (by simp), ih (fun x hx => h x (by simp [hx]))]

/-- C6: a channel-0 note-off whose pitch has a pending note removes
the first pending entry with that pitch (in insertion order), forwards
the raw note-off bytes live, and appends to the timeline a note whose
onset is the pending entry's onset, whose duration is the note-off
event time minus that onset, and whose velocity is the one captured at
onset (the note-off velocity `d2` appears in the live message only,
not in the timeline). -/
theorem C6_matched_noteoff (st : PState) (T : Int) (s d1 d2 : Nat)
    (l1 l2 : List PendingNote) (ev : PendingNote)
    (hch : s &&& 0x0f = 0) (hst : s &&& 0xf0 = 0x80)
    (hE : st.E_ON = l1 ++ ev :: l2) (hno : ∀ e ∈ l1, e.pitch ≠ d1) (hp : ev.pitch = d1) :
    handleEvent st T s d1 d2 =
      { st with
        E_ON := l1 ++ l2
        live := st.live ++ [[0x80, d1, d2]]
        timeline := st.timeline ++
          [TimelineEntry.note 0 ev.pitch ev.onset (T - ev.onset) ev.vel] } := by
  unfold handleEvent
  rw [hch]
  rw [if_neg (by norm_num), if_pos hst]
  unfold handleNoteOff
  rw [hE, popFirst_split d1 l1 l2 ev hno hp]

/-- Witness for C6 on a concrete matched note-off. -/
theorem C6_matched_noteoff_witness :
    handleEvent ⟨7, [⟨10, 60, 99⟩], [], [], [10], [100]⟩ 25 0x80 60 0 =
      ⟨7, [], [TimelineEntry.note 0 60 10 (25 - 10) 99], [[0x80, 60, 0]], [10], [100]⟩ := by
  have h := C6_matched_noteoff ⟨7, [⟨10, 60, 99⟩], [], [], [10], [100]⟩ 25 0x80 60 0
    [] [] ⟨10, 60, 99⟩ (by decide) (by decide) rfl (by simp) rfl
  simpa using h

/-- C7: a channel-0 note-on whose pitch already has a pending entry,
and a channel-0 note-off whose pitch has none, leave the consumer
state entirely unchanged: nothing is forwarded live, nothing is
recorded in the timeline, and the pending-note list is untouched. -/
theorem C7_duplicate_and_unmatched_suppressed (st : PState) (T : Int) (s d1 d2 : Nat)
    (hch : s &&& 0x0f = 0) :
    (s &&& 0xf0 = 0x90 → (∃ e ∈ st.E_ON, e.pitch = d1) → handleEvent st T s d1 d2 = st) ∧
    (s &&& 0xf0 = 0x80 → (∀ e ∈ st.E_ON, e.pitch ≠ d1) → handleEvent st T s d1 d2 = st) := by
  constructor
  · intro hst hex
    have hany : st.E_ON.any (fun e => e.pitch == d1) = true := by
      rcases hex with ⟨e, he, hpe⟩
      exact List.any_eq_true.mpr ⟨e, he, by simpa using hpe⟩
    unfold handleEvent
    rw [hch, hst]
    rw [if_neg (by norm_num), if_neg (by norm_num), if_pos rfl]
    unfold handleNoteOn
    rw [if_pos hany]
  · intro hst hall
    unfold handleEvent
    rw [hch, if_neg (by norm_num), if_pos hst]
    unfold handleNoteOff
    rw [popFirst_none d1 st.E_ON hall]

/-- Witness for C7: a duplicate note-on for pitch 64 and an unmatched
note-off for pitch 66 both leave the state unchanged. -/
theorem C7_duplicate_and_unmatched_suppressed_witness :
    handleEvent ⟨3, [⟨5, 64, 9⟩], [], [], [5], [40]⟩ 8 0x90 64 30 =
      ⟨3, [⟨5, 64, 9⟩], [], [], [5], [40]⟩ ∧
    handleEvent ⟨3, [⟨5, 64, 9⟩], [], [], [5], [40]⟩ 8 0x80 66 0 =
      ⟨3, [⟨5, 64, 9⟩], [], [], [5], [40]⟩ :=
  ⟨(C7_duplicate_and_unmatched_suppressed ⟨3, [⟨5, 64, 9⟩], [], [], [5], [40]⟩ 8 0x90 64 30
      (by decide)).1 (by decide) ⟨⟨5, 64, 9⟩, by simp, rfl⟩,
   (C7_duplicate_and_unmatched_suppressed ⟨3, [⟨5, 64, 9⟩], [], [], [5], [40]⟩ 8 0x80 66 0
      (by decide)).2 (by decide) (by simp)⟩

/-- The entry returned by the note-off scan, and every entry of the
remaining list, come from the scanned list. -/
theorem popFirst_mem (p : Nat) (l : List PendingNote) (q : PendingNote × List PendingNote)
    (h : popFirst p l = some q) : q.1 ∈ l ∧ ∀ x ∈ q.2, x ∈ l := by
  induction l generalizing q with
  | nil => cases h
  | cons e l ih =>
    unfold popFirst at h
    split_ifs at h with hp
    · cases h
      exact ⟨by simp, fun x hx => by simp [hx]⟩
    · obtain ⟨q', hq', heq⟩ := Option.map_eq_some'.mp h
      obtain ⟨h1, h2⟩ := ih q' hq'
      rw [← heq]
      refine ⟨by simp [h1], ?_⟩
      intro x hx
      rcases List.mem_cons.mp hx with hx | hx
      · simp [hx]
      · simp [h2 x hx]

/-- Dispatching one event whose time is the last recorded event time
preserves the correlator-state invariant. -/
theorem good_handleEvent (st : PState) (t : Int) (s d1 d2 : Nat) (tr0 : List Int)
    (htr : st.tTrace = tr0 ++ [t]) (hg : Good st) : Good (handleEvent st t s d1 d2) := by
  obtain ⟨hon, hdur⟩ := hg
  unfold handleEvent
  split_ifs with h1 h2 h3 h4
  · exact ⟨hon, hdur⟩
  · unfold handleNoteOff
    cases hpf : popFirst d1 st.E_ON with
    | none => exact ⟨hon, hdur⟩
    | some q =>
      obtain ⟨hq1, hq2⟩ := popFirst_mem d1 st.E_ON q hpf
      constructor
      · intro e he
        exact hon e (hq2 e he)
      · intro hpw ch p o d v hmem
        rcases List.mem_append.mp hmem with hold | hnew
        · exact hdur hpw ch p o d v hold
        · have honset : q.1.onset ∈ st.tTrace := hon q.1 hq1
          have hle : q.1.onset ≤ t := by
            rw [htr] at honset hpw
            rcases List.mem_append.mp honset with hm | hm
            · exact (List.pairwise_append.mp hpw).2.2 _ hm t (by simp)
            · simp at hm
              omega
          simp at hnew
          omega
  · unfold handleNoteOn
    split_ifs with h5
    · exact ⟨hon, hdur⟩
    · constructor
      · intro e he
        rcases List.mem_append.mp he with hm | hm
        · exact hon e hm
        · simp at hm
          rw [hm, htr]
          simp
      · intro hpw ch p o d v hmem
        exact hdur hpw ch p o d v hmem
  · constructor
    · intro e he
      exact hon e he
    · intro hpw ch p o d v hmem
      rcases List.mem_append.mp hmem with hold | hnew
      · exact hdur hpw ch p o d v hold
      · simp at hnew
  · exact ⟨hon, hdur⟩

/-- The group loop preserves the correlator-state invariant. -/
theorem good_processGroups (chunks : List (Nat × Nat × Nat × Nat)) :
    ∀ (st : PState) (A : Int) (high low0 : Nat), Good st →
      Good (processGroups st A high low0 chunks) := by
  induction chunks with
  | nil => intro st A high low0 hg; exact hg
  | cons ch rest ih =>
    obtain ⟨t, s, d1, d2⟩ := ch
    intro st A high low0 hg
    simp only [processGroups]
    apply ih
    apply good_handleEvent _ _ _ _ _ st.tTrace rfl
    constructor
    · intro e he
      exact List.mem_append_left _ (hg.1 e he)
    · intro hpw ch p o d v hmem
      exact hg.2 (hpw.sublist (List.sublist_append_left _ _)) ch p o d v hmem

/-- Packet processing preserves the correlator-state invariant. -/
theorem good_processPacket (st : PState) (A : Int) (data : List Nat) (st' : PState)
    (h : processPacket st A data = some st') (hg : Good st) : Good st' := by
  unfold processPacket at h
  split_ifs at h with hlen
  · cases h
    exact hg
  · cases data with
    | nil =>
      cases h
      exact hg
    | cons b0 tail =>
      cases tail with
      | nil => cases h
      | cons b1 rest =>
        obtain ⟨chunks, _, heq⟩ := Option.map_eq_some'.mp h
        rw [← heq]
        exact good_processGroups chunks st A _ _ hg

/-- The consumer loop preserves the correlator-state invariant. -/
theorem good_runFrom (packets : List (Int × List Nat)) :
    ∀ st st' : PState, Good st → runFrom st packets = some st' → Good st' := by
  induction packets with
  | nil =>
    intro st st' hg h
    cases h
    exact hg
  | cons pk rest ih =>
    obtain ⟨A, data⟩ := pk
    intro st st' hg h
    simp only [runFrom] at h
    cases hpp : processPacket st A data with
    | none => rw [hpp] at h; cases h
    | some st1 =>
      rw [hpp] at h
      exact ih st1 st' (good_processPacket st A data st1 hpp hg) h

/-- C4, counterexample: a note-on at arrival 50 with local clock 100
followed by a note-off at the same arrival 50 whose local clock jumped
to 5000 (a device/host disagreement beyond half a wrap period) makes
the unwrapper place the note-off 8192 ms early, and the timeline
records a note of duration -3292 ms: with no restriction on the clock
inputs the timeline can contain a negative duration. -/
theorem C4_negative_duration_counterexample :
    (runConsumer [(50, [0, 100, 0x90, 60, 100]),
      (50, [39, 8, 0x80, 60, 0])]).map PState.timeline =
      some [TimelineEntry.note 0 60 50 (-3292) 100] ∧ (-3292 : Int) < 0 := by
  decide

/-- C4, amended: every note the pipeline appends to the timeline has a
well-defined duration, namely the note-off event time minus the
matched onset; and for every input packet sequence whose computed
event times are monotonically non-decreasing over the session (the
situation the unwrapper guarantees under bounded host/device skew,
cf. C2), every such duration is non-negative. -/
theorem C4_durations_nonneg_of_monotone_times (packets : List (Int × List Nat)) (st : PState)
    (hrun : runConsumer packets = some st)
    (hmono : List.Chain' (· ≤ ·) st.tTrace) :
    ∀ ch p o d v, TimelineEntry.note ch p o d v ∈ st.timeline → 0 ≤ d := by
  have hinit : Good initState := by
    constructor
    · intro e he
      simp [initState] at he
    · intro _ ch p o d v hm
      simp [initState] at hm
  have hg := good_runFrom packets initState st hinit hrun
  exact hg.2 (List.chain'_iff_pairwise.mp hmono)

/-- Witness for the amended C4: a matched note-on/note-off pair one
packet apart yields the timeline note of duration 1000 ms, and the
theorem applies since the event times 50, 1050 are non-decreasing. -/
theorem C4_durations_nonneg_of_monotone_times_witness :
    (0 : Int) ≤ 1000 :=
  C4_durations_nonneg_of_monotone_times
    [(50, [0, 100, 0x90, 60, 100]), (1100, [8, 76, 0x80, 60, 0])]
    ⟨-50, [], [TimelineEntry.note 0 60 50 1000 100], [[144, 60, 100], [128, 60, 0]],
      [50, 1050], [100, 1100]⟩
    (by decide) (by norm_num [List.chain'_cons]) 0 60 50 1000 100 (by decide)

/-- Combining a high field shifted left by 7 with a 7-bit low field is
plain positional arithmetic. -/
theorem shiftLeft7_or_eq (x low : Nat) (h : low < 128) :
    (x <<< 7) ||| low = x * 128 + low := by
  have h7 : low < 2 ^ 7 := by norm_num [h]
  calc (x <<< 7) ||| low = 2 ^ 7 * x ||| low := by rw [Nat.shiftLeft_eq, Nat.mul_comm]
    _ = 2 ^ 7 * x + low := (Nat.mul_add_lt_is_or h7 x).symm
    _ = x * 128 + low := by ring

/-- C8, counterexample: within one packet, a 13-bit reading of 8000
(high field 62, low field 64) followed by a low field of 50 yields the
reconstructed reading 8114, not 8192 + 50 = 8242: the high field
counts 128 ms periods, so one rollover adds 128, not 8192. -/
theorem C8_highfield_counterexample :
    (runConsumer [(8001, [62, 64, 0x90, 60, 100, 50, 0x80, 60, 0])]).map PState.clkTrace =
      some [8000, 8114] ∧ (8114 : Nat) ≠ 8192 + 50 := by
  decide

/-- C8, amended: when the 7-bit low field decreases from one 4-byte
group to the next, the high field increments by exactly 1 and the
reconstructed reading is `(high + 1) * 128 + low`; in particular a
13-bit reading of 8000 (high 62, low 64) followed by a low field of 50
produces the continuous reading 63 * 128 + 50 = 8114 rather than a
backward jump. -/
theorem C8_rollover_increments_high :
    (∀ high low0 t : Nat, t &&& 0x7f < low0 →
      clockStep high low0 t = (high + 1, (high + 1) * 128 + (t &&& 0x7f))) ∧
    (runConsumer [(8001, [62, 64, 0x90, 60, 100, 50, 0x80, 60, 0])]).map PState.clkTrace =
      some [8000, 8114] := by
  constructor
  · intro high low0 t h
    simp only [clockStep]
    rw [if_pos h, shiftLeft7_or_eq _ _ (Nat.lt_of_le_of_lt Nat.and_le_right (by norm_num))]
  · decide

/-- Witness for the amended C8 at high 62, previous low 64, timestamp
byte 50. -/
theorem C8_rollover_increments_high_witness :
    clockStep 62 64 50 = (62 + 1, (62 + 1) * 128 + (50 &&& 0x7f)) :=
  C8_rollover_increments_high.1 62 64 50 (by decide)
